import Mathlib

/-
  Verification development for the davis instruction-set simulator.

  The definitions below are a shallow embedding of the TypeScript sources:
  `src/app/assembly/assembler.ts` (assembler, label resolver) and
  `src/unnamed/part_000` (the CPU execution engine, register table, status word).
  Components that the sources import but that are not part of the visible
  source tree (memory blocks/views, the line map, the parameter and
  instruction classes) are modelled from the design document, and each such
  definition is marked `Modelled from the spec:` in its doc comment.

  JavaScript machine numbers are embedded as Nat/Int with explicit
  reductions modulo 2 ^ (8 * size) where a sized write truncates.
-/

namespace Davis

/-- Little-endian value of a list of bytes (least significant byte first). -/
def leValue : List Nat → Nat
  | [] => 0
  | b :: rest => b + 256 * leValue rest

/-- The `size` least-significant bytes of `n`, least significant first. -/
def natToBytes : Nat → Nat → List Nat
  | _, 0 => []
  | n, s + 1 => n % 256 :: natToBytes (n / 256) s

/-- Write the bytes `vs` into `l` starting at position `off`, one `List.set`
per byte, mirroring a loop of single-byte stores. -/
def listWrite : List Nat → Nat → List Nat → List Nat
  | l, _, [] => l
  | l, off, v :: rest => listWrite (l.set off v) (off + 1) rest

/-- Modelled from the spec: the sources import `MemoryBlock` from
`memory-block.ts`, which is not part of the visible tree.  Per §2/§4.4 it is
a fixed-size byte buffer supporting sized reads and writes. -/
structure MemoryBlock where
  bytes : List Nat
deriving Repr, DecidableEq

def MemoryBlock.size (b : MemoryBlock) : Nat := b.bytes.length

/-- Truncation of a JavaScript number to `size` bytes on a sized write. -/
def intToUnsigned (v : Int) (size : Nat) : Nat := (v % ((2 : Int) ^ (8 * size))).toNat

/-- Modelled from the spec: reading a sized view (`MemoryView`, absent from
the visible tree) returns exactly its byte range reinterpreted as an
integer (§4.4); the byte order is little-endian, matching the register
table, which places the low-byte alias at offset 0 and the high-byte alias
at offset 1 of a bank. -/
def blockGet (b : MemoryBlock) (off size : Nat) : Nat :=
  leValue ((b.bytes.drop off).take size)

/-- Modelled from the spec: writing a sized view stores the value's bytes
into the view's own byte range and leaves the rest of the buffer
unchanged (§4.4). -/
def blockSet (b : MemoryBlock) (off size : Nat) (v : Int) : MemoryBlock :=
  ⟨listWrite b.bytes off (natToBytes (intToUnsigned v size) size)⟩

/-- Register descriptor from `part_000`: `RegisterInfo(id, bank, byteSize, index)`. -/
structure RegisterInfo where
  id : Nat
  bank : Nat
  byteSize : Nat
  index : Nat := 0
deriving Repr, DecidableEq

/-- The static register table `REGISTER_INDEX` from `part_000`, verbatim. -/
def REGISTER_INDEX : List (String × RegisterInfo) := [
  ("NULL", ⟨0, 0, 4, 0⟩),
  ("EIP", ⟨1, 1, 4, 0⟩),
  ("EBP", ⟨2, 2, 4, 0⟩),
  ("ESP", ⟨3, 3, 4, 0⟩),
  ("EAX", ⟨20, 4, 4, 0⟩),
  ("AX", ⟨21, 4, 2, 0⟩),
  ("AH", ⟨22, 4, 1, 1⟩),
  ("AL", ⟨23, 4, 1, 0⟩),
  ("EBX", ⟨24, 5, 4, 0⟩),
  ("BX", ⟨25, 5, 2, 0⟩),
  ("BH", ⟨26, 5, 1, 1⟩),
  ("BL", ⟨27, 5, 1, 0⟩),
  ("ECX", ⟨28, 6, 4, 0⟩),
  ("CX", ⟨29, 6, 2, 0⟩),
  ("CH", ⟨30, 6, 1, 1⟩),
  ("CL", ⟨31, 6, 1, 0⟩)]

def registerInfo (name : String) : Option RegisterInfo :=
  (REGISTER_INDEX.find? (fun p => p.1 = name)).map Prod.snd

/-- Label record from `assembler.ts` (`name`, `local`, `address`). -/
structure Label where
  name : String
  isLocal : Bool
  address : Nat
deriving Repr, DecidableEq

/-- LabelResolver state: the insertion-ordered label table (a JS object keyed
by qualified name) and the list of label operands recorded for back-patching.
In JS the unresolved list holds references to the mutable LabelParameter
objects; here it records their label names, which is what resolution keys on. -/
structure LabelResolver where
  labels : List (String × Label) := []
  unresolvedParameters : List String := []
deriving Repr, DecidableEq

/-- Structured form of the AssemblyException messages thrown by the assembler. -/
inductive ErrKind
  | duplicateLabel (name : String)
  | orphanLocalLabel (name : String)
  | unknownLabel (name : String)
  | unknownInstruction (ty : String)
  | unknownRegister (name : String)
  | invalidOperands (instructionName : String)
deriving Repr, DecidableEq

/-- Operand kind tags (the `Parameter.Reg` / `Constant` / `Memory` / `Label`
constants used for dispatch and validity masks). -/
inductive ParamTag
  | Reg
  | Constant
  | Memory
  | Label
deriving Repr, DecidableEq

/-- Parse-tree operand shapes handed to the assembler by the external grammar. -/
inductive Operand
  | register (name : String)
  | constant (value : Int) (deref : Bool)
  | memory (baseRegister : String) (indexRegister : Option String)
      (multiplier : Option Int) (constant : Option Int)
  | label (value : String) (deref : Bool)
  | cast (size : Nat) (value : Operand)
deriving Repr, DecidableEq

def getInnerParameter : Operand → Operand
  | .cast _ value => getInnerParameter value
  | op => op

def getParameterSize : Operand → Nat
  | .cast size _ => if size > 0 then size else 4
  | _ => 4

/-- The `tag` of an operand as used for dispatch (casts are unwrapped by
`getInnerParameter` before the tag is consulted). -/
def Operand.tag : Operand → ParamTag
  | .register _ => .Reg
  | .constant _ _ => .Constant
  | .memory _ _ _ _ => .Memory
  | .label _ _ => .Label
  | .cast _ v => Operand.tag v

/-- Modelled from the spec: the encoded parameter variants (§3 Operand); the
`parameter.ts` classes are absent from the visible tree.  A Label parameter
starts unresolved (`address = none`) and is back-patched by the resolver. -/
inductive Parameter
  | register (size : Nat) (id : Nat)
  | constant (size : Nat) (value : Int) (deref : Bool)
  | memory (size : Nat) (baseReg : Nat) (indexReg : Nat) (multiplier : Int) (constant : Int)
  | label (size : Nat) (label : String) (deref : Bool) (address : Option Nat)
deriving Repr, DecidableEq

/-- Modelled from the spec: the instruction identities registered in
`InstructionMapping` (the mov/jump/interrupt classes are absent from the
visible tree). -/
inductive Instr
  | mov
  | jmp
  | intr
deriving Repr, DecidableEq

def InstructionMapping : List (String × Instr) := [("MOV", .mov), ("JMP", .jmp), ("INT", .intr)]

/-- Modelled from the spec: each instruction's accepted operand-kind
combinations (§3, §4.2); the design document's examples require MOV
register, constant; JMP label; INT constant. -/
def Instr.getValidParameters : Instr → List (List ParamTag)
  | .mov => [[.Reg, .Reg], [.Reg, .Constant], [.Reg, .Memory], [.Memory, .Reg], [.Memory, .Constant]]
  | .jmp => [[.Label]]
  | .intr => [[.Constant]]

/-- Display name used in the InvalidOperands message (`instruction.toString()`). -/
def Instr.displayName : Instr → String
  | .mov => "MOV"
  | .jmp => "JMP"
  | .intr => "INT"

structure EncodedInstruction where
  instruction : Instr
  parameters : List Parameter
deriving Repr, DecidableEq

/-- A parsed label statement (`line.label`): `name.value` and the `local` flag. -/
structure LabelAST where
  name : String
  isLocal : Bool
deriving Repr, DecidableEq

/-- A parsed data constant: a string (expanded per character) or a number. -/
inductive ConstantAST
  | str (value : String)
  | num (value : Int)
deriving Repr, DecidableEq

structure DataLineInner where
  label : Option LabelAST
  size : Option Nat
  constants : List ConstantAST
deriving Repr, DecidableEq

/-- A parsed instruction statement; `ty` is the JS `type` field, which the
UnknownInstruction message reports. -/
structure InstrAST where
  ty : String
  name : String
  operands : List Operand
deriving Repr, DecidableEq

structure TextLineInner where
  label : Option LabelAST
  instruction : Option InstrAST
deriving Repr, DecidableEq

/-- One parsed source line with its 1-based `location.start.line`. -/
structure LineEntry (α : Type) where
  startLine : Nat
  line : α
deriving Repr, DecidableEq

structure ParsedProgram where
  data : List (LineEntry DataLineInner)
  text : List (LineEntry TextLineInner)
deriving Repr, DecidableEq

/-- The `data` payload carried by an AssemblyException. -/
inductive LineData
  | empty
  | dataLine (l : DataLineInner)
  | textLine (l : TextLineInner)
deriving Repr, DecidableEq

/-- Failures escaping the assembler: an AssemblyException (structured message
kind, line, data; the constructor defaults are line 0 and empty data), or a
raw JavaScript TypeError, which is not an AssemblyException and so is never
re-wrapped by the per-line catch blocks. -/
inductive AsmException
  | asm (kind : ErrKind) (line : Nat) (data : LineData)
  | jsTypeError
deriving Repr, DecidableEq

/-- Modelled from the spec: the Line Map (§3) from `program.ts`, absent from
the visible tree: a bidirectional mapping between instruction addresses and
source line numbers, appended to by `mapLine` during the text pass. -/
structure LineMap where
  entries : List (Nat × Nat) := []
deriving Repr, DecidableEq

def LineMap.mapLine (m : LineMap) (address line : Nat) : LineMap :=
  ⟨m.entries ++ [(address, line)]⟩

def LineMap.getAddressByLine (m : LineMap) (line : Nat) : Option Nat :=
  (m.entries.find? (fun p => p.2 = line)).map Prod.fst

def LineMap.getLineByAddress (m : LineMap) (address : Nat) : Option Nat :=
  (m.entries.find? (fun p => p.1 = address)).map Prod.snd

/-- MemoryDefinition from `assembler.ts`: one unit of initialized data. -/
structure MemoryDefinition where
  address : Nat
  size : Nat
  value : Int
deriving Repr, DecidableEq

inductive MemoryType
  | Data
  | Text
deriving Repr, DecidableEq

structure AssemblyData where
  textAddress : Nat := 0
  dataAddress : Nat := 0
  lineMap : LineMap := ⟨[]⟩
  labelResolver : LabelResolver := ⟨[], []⟩
deriving Repr, DecidableEq

def AssemblyData.getAddress (ad : AssemblyData) : MemoryType → Nat
  | .Data => ad.dataAddress
  | .Text => ad.textAddress

def LabelResolver.hasLabel (r : LabelResolver) (label : String) : Bool :=
  r.labels.any (fun p => decide (p.1 = label))

/-- lodash `_.findLast`: the last element of the list satisfying the predicate. -/
def findLastP {α : Type} (p : α → Bool) : List α → Option α
  | [] => none
  | x :: xs =>
    match findLastP p xs with
    | some y => some y
    | none => if p x then some x else none

def LabelResolver.findPreviousGlobalLabel (r : LabelResolver) (address : Nat) : Option Label :=
  findLastP (fun l => !l.isLocal && decide (l.address ≤ address)) (r.labels.map Prod.snd)

def LabelResolver.normalizeLabelName (r : LabelResolver) (label : String) (isLocal : Bool)
    (address : Nat) : Except AsmException String :=
  if isLocal then
    match r.findPreviousGlobalLabel address with
    | none => .error (.asm (.orphanLocalLabel label) 0 .empty)
    | some previousLabel => .ok (previousLabel.name ++ "." ++ label)
  else .ok label

def LabelResolver.addLabel (r : LabelResolver) (address : Nat) (label : String)
    (isLocal : Bool) : Except AsmException LabelResolver := do
  let q ← r.normalizeLabelName label isLocal address
  if r.hasLabel q then
    .error (.asm (.duplicateLabel q) 0 .empty)
  else
    .ok { r with labels := r.labels ++ [(q, ⟨q, isLocal, address⟩)] }

def LabelResolver.markUnresolvedParameter (r : LabelResolver) (label : String) : LabelResolver :=
  { r with unresolvedParameters := r.unresolvedParameters ++ [label] }

def LabelResolver.lookupAddress (r : LabelResolver) (label : String) : Option Nat :=
  (r.labels.find? (fun p => decide (p.1 = label))).map (fun p => p.2.address)

/-- `resolveAddresses`: walks the recorded label operands; the first one whose
(already-qualified) name is absent from the table raises UnknownLabel.  The
address write into each registered operand object is applied to the program
by `patchParameter` below. -/
def LabelResolver.resolveAddresses (r : LabelResolver) : Except AsmException Unit :=
  r.unresolvedParameters.foldl
    (fun acc name => acc >>= fun _ =>
      if r.hasLabel name then .ok () else .error (.asm (.unknownLabel name) 0 .empty))
    (.ok ())

/-- In JS, `resolveAddresses` mutates the registered LabelParameter objects,
which are aliased inside the encoded instructions; the pure embedding applies
the same name-keyed address write to the label parameters of the instruction
list (every label parameter inside an instruction was registered at creation). -/
def patchParameter (r : LabelResolver) : Parameter → Parameter
  | .label size name deref _ => .label size name deref (r.lookupAddress name)
  | p => p

def parseRegisterName (registerName : String) : Except AsmException String :=
  if (registerInfo registerName).isSome then .ok registerName
  else .error (.asm (.unknownRegister registerName) 0 .empty)

def registerId (name : String) : Nat := ((registerInfo name).map RegisterInfo.id).getD 0

def parseRegisterParameter (size : Nat) (op : Operand) : Except AsmException Parameter :=
  match op with
  | .register name => do
    let n ← parseRegisterName name
    .ok (.register size (registerId n))
  | _ => .error .jsTypeError

def parseConstantParameter (size : Nat) (op : Operand) : Except AsmException Parameter :=
  match op with
  | .constant value deref => .ok (.constant size value deref)
  | _ => .error .jsTypeError

def parseMemoryParameter (size : Nat) (op : Operand) : Except AsmException Parameter :=
  match op with
  | .memory base index mult const => do
    let bname ← parseRegisterName base
    let baseRegId := registerId bname
    let indexRegId ← match index with
      | none => pure 0
      | some ixName => do
        let ix ← parseRegisterName ixName
        pure (registerId ix)
    let multiplier : Int := mult.getD 0
    let constant : Int := const.getD 0
    .ok (.memory size baseRegId indexRegId multiplier constant)
  | _ => .error .jsTypeError

/-- Embeds `parseLabelParameter(size, operand, assemblyData)`.  The third
JS parameter is modelled as an `Option`: the dispatch in `loadParameters`
invokes the builders with only two arguments, so `assemblyData` arrives as
`undefined` (`none`) and the property access `assemblyData.labelResolver`
throws a TypeError. -/
def parseLabelParameter (size : Nat) (op : Operand) (assemblyData : Option AssemblyData) :
    Except AsmException (Parameter × AssemblyData) :=
  match op with
  | .label value deref =>
    match assemblyData with
    | none => .error .jsTypeError
    | some ad =>
      let labelParameter : Parameter := .label size value deref none
      .ok (labelParameter,
        { ad with labelResolver := ad.labelResolver.markUnresolvedParameter value })
  | _ => .error .jsTypeError

def checkParameterCompatibility (instruction : Instr) (operands : List Operand) :
    Except AsmException Unit :=
  let parameterMask := operands.map (fun op => (getInnerParameter op).tag)
  if (instruction.getValidParameters.any (fun mask => decide (parameterMask = mask))) then
    .ok ()
  else
    .error (.asm (.invalidOperands instruction.displayName) 0 .empty)

/-- Embeds `loadParameters`: validity check, then per-operand dispatch on the
inner operand's tag.  The dispatch calls each builder with exactly two
arguments, so `parseLabelParameter` receives `none` for `assemblyData`. -/
def loadParameters (instruction : Instr) (operands : List Operand) :
    Except AsmException (List Parameter) := do
  let _ ← checkParameterCompatibility instruction operands
  operands.mapM (fun operand =>
    let innerOperand := getInnerParameter operand
    match innerOperand.tag with
    | .Reg => parseRegisterParameter (getParameterSize operand) innerOperand
    | .Constant => parseConstantParameter (getParameterSize operand) innerOperand
    | .Memory => parseMemoryParameter (getParameterSize operand) innerOperand
    | .Label => (parseLabelParameter (getParameterSize operand) innerOperand none).map Prod.fst)

def parseInstruction (instruction : InstrAST) : Except AsmException EncodedInstruction :=
  match (InstructionMapping.find? (fun p => p.1 = instruction.name)).map Prod.snd with
  | none => .error (.asm (.unknownInstruction instruction.ty) 0 .empty)
  | some instructionInstance => do
    let params ← loadParameters instructionInstance instruction.operands
    .ok ⟨instructionInstance, params⟩

def assembleLabel (label : LabelAST) (ad : AssemblyData) (memoryType : MemoryType) :
    Except AsmException AssemblyData := do
  let r ← ad.labelResolver.addLabel (ad.getAddress memoryType) label.name label.isLocal
  .ok { ad with labelResolver := r }

/-- Expansion of a string constant: one definition per character, using the
character's numeric code, advancing the data cursor by `size` each. -/
def stringDefs (size : Nat) : List Char → Nat → List MemoryDefinition × Nat
  | [], addr => ([], addr)
  | ch :: rest, addr =>
    let (ds, a) := stringDefs size rest (addr + size)
    (⟨addr, size, Int.ofNat ch.toNat⟩ :: ds, a)

def constantDefs (size : Nat) : List ConstantAST → Nat → List MemoryDefinition × Nat
  | [], addr => ([], addr)
  | .str s :: rest, addr =>
    let (ds, a) := stringDefs size s.data addr
    let (ds2, a2) := constantDefs size rest a
    (ds ++ ds2, a2)
  | .num v :: rest, addr =>
    let (ds2, a2) := constantDefs size rest (addr + size)
    (⟨addr, size, v⟩ :: ds2, a2)

def assembleMemoryDefinitions (line : DataLineInner) (ad : AssemblyData) :
    Except AsmException (List MemoryDefinition × AssemblyData) := do
  let ad ← match line.label with
    | some lbl => assembleLabel lbl ad .Data
    | none => pure ad
  match line.size with
  | none => .ok ([], ad)
  | some size =>
    let (ds, addr) := constantDefs size line.constants ad.dataAddress
    .ok (ds, { ad with dataAddress := addr })

/-- The per-line catch: an AssemblyException is re-thrown with the same
message kind, the line's 1-based number and the parsed line data; any other
failure is re-thrown unchanged. -/
def wrapLine (e : AsmException) (line0 : Nat) (d : LineData) : AsmException :=
  match e with
  | .asm kind _ _ => .asm kind (line0 + 1) d
  | other => other

def assembleDataSegment :
    List (LineEntry DataLineInner) → AssemblyData →
      Except AsmException (List MemoryDefinition × AssemblyData)
  | [], ad => .ok ([], ad)
  | e :: rest, ad =>
    let line0 := e.startLine - 1
    match assembleMemoryDefinitions e.line ad with
    | .error err => .error (wrapLine err line0 (.dataLine e.line))
    | .ok (ds, ad2) =>
      match assembleDataSegment rest ad2 with
      | .error err => .error err
      | .ok (ds2, adF) => .ok (ds ++ ds2, adF)

def assembleInstruction (line : TextLineInner) (ad : AssemblyData) :
    Except AsmException (Option EncodedInstruction × AssemblyData) := do
  let ad ← match line.label with
    | some lbl => assembleLabel lbl ad .Text
    | none => pure ad
  match line.instruction with
  | some instr => do
    let ei ← parseInstruction instr
    .ok (some ei, ad)
  | none => .ok (none, ad)

def assembleTextSegment :
    List (LineEntry TextLineInner) → AssemblyData →
      Except AsmException (List EncodedInstruction × AssemblyData)
  | [], ad => .ok ([], ad)
  | e :: rest, ad =>
    let line0 := e.startLine - 1
    match assembleInstruction e.line ad with
    | .error err => .error (wrapLine err line0 (.textLine e.line))
    | .ok (none, ad2) => assembleTextSegment rest ad2
    | .ok (some instr, ad2) =>
      let ad3 := { ad2 with
        lineMap := ad2.lineMap.mapLine ad2.textAddress line0
        textAddress := ad2.textAddress + 1 }
      match assembleTextSegment rest ad3 with
      | .error err => .error err
      | .ok (is, adF) => .ok (instr :: is, adF)

structure Program where
  instructions : List EncodedInstruction
  memoryDefinitions : List MemoryDefinition
  lineMap : LineMap
deriving Repr, DecidableEq

/-- Embeds `Assembler.assemble` from the point where the external grammar has
produced the parsed line list (the textual grammar is out of scope per §1):
data pass, text pass, then `resolveAddresses`, whose failure aborts assembly
without per-line wrapping. -/
def assembleParsedFull (p : ParsedProgram) : Except AsmException (Program × AssemblyData) := do
  let assemblyData : AssemblyData := {}
  let (memoryDefinitions, ad1) ← assembleDataSegment p.data assemblyData
  let (instructions, ad2) ← assembleTextSegment p.text ad1
  let _ ← ad2.labelResolver.resolveAddresses
  let patched := instructions.map
    (fun ei => { ei with parameters := ei.parameters.map (patchParameter ad2.labelResolver) })
  .ok (⟨patched, memoryDefinitions, ad2.lineMap⟩, ad2)

def assembleParsed (p : ParsedProgram) : Except AsmException Program :=
  (assembleParsedFull p).map Prod.fst

/-- StatusWord from `part_000`: five independent boolean flags. -/
structure StatusWord where
  carry : Bool := false
  zero : Bool := false
  overflow : Bool := false
  signum : Bool := false
  direction : Bool := false
deriving Repr, DecidableEq

/-- Observable notifications fired during a step (the onInterrupt and onExit
event broadcasters). -/
inductive Event
  | interrupt (code : Int)
  | exit
deriving Repr, DecidableEq

/-- CPU state from `part_000`.  `scheduleTimeout` records whether a
timer-scheduled step is pending (armed by `scheduleRun`, cancelled by
`clearScheduledRun`). -/
structure CPUState where
  registers : List MemoryBlock
  memory : MemoryBlock
  status : StatusWord := {}
  program : Program
  breakpoints : List Nat := []
  running : Bool := false
  stoppedOnBreakpoint : Bool := false
  scheduleTimeout : Bool := false
deriving Repr, DecidableEq

/-- `getRegisterByName(name).getValue()`: read the named register's byte
range from its bank, as set up in the constructor from REGISTER_INDEX. -/
def regGet (st : CPUState) (name : String) : Nat :=
  match registerInfo name with
  | some info => blockGet (st.registers.getD info.bank ⟨[]⟩) info.index info.byteSize
  | none => 0

/-- `getRegisterByName(name).setValue(v)`: write through the named register's
view, touching only its byte range of its bank. -/
def regSet (st : CPUState) (name : String) (v : Int) : CPUState :=
  match registerInfo name with
  | some info =>
    let newBank := blockSet (st.registers.getD info.bank ⟨[]⟩) info.index info.byteSize v
    { st with registers := st.registers.set info.bank newBank }
  | none => st

def CPUState.eip (st : CPUState) : Nat := regGet st "EIP"

/-- `reset()`: instruction pointer to 0, stack and base pointers to
`memory.size - 1` (JS subtraction, hence the `Int` form). -/
def reset (st : CPUState) : CPUState :=
  let st1 := regSet st "EIP" 0
  let st2 := regSet st1 "ESP" ((st1.memory.size : Int) - 1)
  regSet st2 "EBP" ((st2.memory.size : Int) - 1)

/-- The CPU constructor: ten zero-initialized 4-byte register banks, the
given main memory and program, then `reset()`. -/
def cpuInit (program : Program) (memory : MemoryBlock) : CPUState :=
  reset { registers := List.replicate 10 ⟨List.replicate 4 0⟩,
          memory := memory, program := program }

def isFinished (st : CPUState) : Bool :=
  decide (st.eip ≥ st.program.instructions.length)

def hasBreakpoint (st : CPUState) : Bool :=
  st.breakpoints.contains st.eip

def clearScheduledRun (st : CPUState) : CPUState :=
  if st.scheduleTimeout then { st with scheduleTimeout := false } else st

def pause (st : CPUState) : CPUState :=
  clearScheduledRun { st with running := false }

def run (st : CPUState) : CPUState :=
  { st with running := true, scheduleTimeout := true }

/-- Embeds the `breakpoints` setter.  In the source the `value !== null`
predicate is passed as a third argument to `_.map` — which ignores it —
instead of to `_.filter`, so the filter runs with lodash's default identity
predicate: a mapped address is kept only if truthy, dropping both `null`
(lines with no instruction) and the instruction address `0`, which is a
falsy JavaScript number. -/
def setBreakpoints (st : CPUState) (value : List Nat) : CPUState :=
  let mapped := value.map (fun row => st.program.lineMap.getAddressByLine row)
  { st with breakpoints := mapped.filterMap (fun o =>
      match o with
      | some a => if a = 0 then none else some a
      | none => none) }

/-- `push(value)`: ESP is decremented by 4, then the value is written at the
new stack-pointer address through a 4-byte memory view (`deref(esp)`). -/
def push (st : CPUState) (value : Int) : CPUState :=
  let st1 := regSet st "ESP" ((regGet st "ESP" : Int) + (-4))
  let esp := regGet st1 "ESP"
  { st1 with memory := blockSet st1.memory esp 4 value }

/-- `pop()`: the value at the stack-pointer address is read through a 4-byte
memory view, then ESP is incremented by 4. -/
def pop (st : CPUState) : Nat × CPUState :=
  let esp := regGet st "ESP"
  let value := blockGet st.memory esp 4
  let st1 := regSet st "ESP" ((esp : Int) + 4)
  (value, st1)

/-- `calculateEffectiveAddress`: base + index * multiplier + constant, where
an absent index register is replaced by the NULL register; at this call
boundary the multiplier parameter defaults to 1 and the constant to 0. -/
def calculateEffectiveAddress (st : CPUState) (baseReg : String)
    (indexReg : Option String) (multiplier : Int) (constant : Int) : Int :=
  let indexVal : Nat :=
    match indexReg with
    | none => regGet st "NULL"
    | some r => regGet st r
  (regGet st baseReg : Int) + (indexVal : Int) * multiplier + constant

/-- `setFlags(value)`: zero flag iff the value is 0, signum flag iff it is
negative; the other flags are untouched by this generic path. -/
def setFlags (st : CPUState) (value : Int) : CPUState :=
  { st with status := { st.status with
      zero := decide (value = 0)
      signum := decide (value < 0) } }

/-- `getRegisterByIndex`: find the register name whose id matches, then write
through its view. -/
def regSetById (st : CPUState) (id : Nat) (v : Int) : CPUState :=
  match (REGISTER_INDEX.find? (fun p => p.2.id = id)).map Prod.fst with
  | some name => regSet st name v
  | none => st

/-- Modelled from the spec: instruction behaviors `execute(cpu) → next
instruction address` (§4.3); the instruction classes are absent from the
visible tree.  Only the representative behaviors exercised by the
execution-engine claims are modelled: MOV into a register destination writes
the constant source through the destination's register view and falls
through; JMP transfers control to its resolved label address; INT notifies
the interrupt observers and, for the reserved exit code 0, also the exit
observers.  Unmodelled operand shapes fall through unchanged. -/
def execInstruction (st : CPUState) (ei : EncodedInstruction) (eip : Nat) :
    CPUState × Nat × List Event :=
  match ei.instruction, ei.parameters with
  | .mov, [.register _ rid, .constant _ v _] => (regSetById st rid v, eip + 1, [])
  | .jmp, [.label _ _ _ (some a)] => (st, a, [])
  | .intr, [.constant _ code _] =>
    (st, eip + 1, if code = 0 then [.interrupt code, .exit] else [.interrupt code])
  | _, _ => (st, eip + 1, [])

/-- `executeOneInstruction`: fetch at EIP, run the behavior, write the
returned next address into EIP.  (The fetch cannot miss when reached through
`step`, which has already checked `isFinished`.) -/
def executeOneInstruction (st : CPUState) : CPUState × List Event :=
  let eip := st.eip
  match st.program.instructions[eip]? with
  | none => (st, [])
  | some instruction =>
    let (st2, nextAddress, events) := execInstruction st instruction eip
    (regSet st2 "EIP" (nextAddress : Int), events)

/-- `step()`: exit notification when finished; otherwise the two-call
breakpoint contract (arrive-and-stop, then execute through); otherwise one
instruction. -/
def step (st : CPUState) : CPUState × List Event :=
  if isFinished st then
    (pause st, [.exit])
  else if hasBreakpoint st then
    if !st.stoppedOnBreakpoint then
      (pause { st with stoppedOnBreakpoint := true }, [])
    else
      executeOneInstruction { st with stoppedOnBreakpoint := false }
  else
    executeOneInstruction st

/-- Shape of the register file as established by the constructor: ten banks
of four bytes each, every stored byte below 256. -/
def WFRegs (st : CPUState) : Prop :=
  st.registers.length = 10 ∧
    ∀ b ∈ st.registers, b.bytes.length = 4 ∧ ∀ x ∈ b.bytes, x < 256

instance (st : CPUState) : Decidable (WFRegs st) := by
  unfold WFRegs; infer_instance

/-- The forward-reference program of §8: `JMP end` on line 1, then
`end: INT 0` on line 2. -/
def forwardProgram : ParsedProgram :=
  { data := [],
    text := [
      ⟨1, ⟨none, some ⟨"JMP", "JMP", [.label "end" false]⟩⟩⟩,
      ⟨2, ⟨some ⟨"end", false⟩, some ⟨"INT", "INT", [.constant 0 false]⟩⟩⟩] }

/-- A second label-operand program (lines 5 and 6) used to exhibit the
unwrapped per-line failure. -/
def labelOperandProgram : ParsedProgram :=
  { data := [],
    text := [
      ⟨5, ⟨none, some ⟨"JMP", "JMP", [.label "loop" false]⟩⟩⟩,
      ⟨6, ⟨some ⟨"loop", false⟩, some ⟨"INT", "INT", [.constant 0 false]⟩⟩⟩] }

/-- A data-segment global label `d`, then a text-segment local label `m`
defined before any global label of the text segment. -/
def crossSegmentProgram : ParsedProgram :=
  { data := [⟨1, ⟨some ⟨"d", false⟩, some 1, [.num 1]⟩⟩],
    text := [⟨2, ⟨some ⟨"m", true⟩, some ⟨"INT", "INT", [.constant 0 false]⟩⟩⟩] }

/-- Global label `a` defined twice in the data segment. -/
def dupDataData : ParsedProgram :=
  { data := [⟨1, ⟨some ⟨"a", false⟩, some 1, [.num 1]⟩⟩,
             ⟨2, ⟨some ⟨"a", false⟩, some 1, [.num 2]⟩⟩],
    text := [] }

/-- Global label `a` defined twice in the text segment. -/
def dupTextText : ParsedProgram :=
  { data := [],
    text := [⟨1, ⟨some ⟨"a", false⟩, some ⟨"INT", "INT", [.constant 0 false]⟩⟩⟩,
             ⟨2, ⟨some ⟨"a", false⟩, some ⟨"INT", "INT", [.constant 0 false]⟩⟩⟩] }

/-- Global label `a` defined once in the data segment and once in the text
segment. -/
def dupDataText : ParsedProgram :=
  { data := [⟨1, ⟨some ⟨"a", false⟩, some 1, [.num 1]⟩⟩],
    text := [⟨2, ⟨some ⟨"a", false⟩, some ⟨"INT", "INT", [.constant 0 false]⟩⟩⟩] }

/-- One `MOV EAX, 5` instruction at address 0, mapped to source line 3. -/
def bpProgram : Program :=
  { instructions := [⟨.mov, [.register 4 20, .constant 4 5 false]⟩],
    memoryDefinitions := [],
    lineMap := ⟨[(0, 3)]⟩ }

/-- The CPU for `bpProgram` with the breakpoint list set to line 3, the line
of the first instruction. -/
def bpState : CPUState :=
  setBreakpoints (cpuInit bpProgram ⟨List.replicate 32 0⟩) [3]

/-- Two instructions at addresses 0 and 1, mapped to lines 3 and 4. -/
def bp2Program : Program :=
  { instructions := [⟨.mov, [.register 4 20, .constant 4 5 false]⟩,
                     ⟨.mov, [.register 4 24, .constant 4 7 false]⟩],
    memoryDefinitions := [],
    lineMap := ⟨[(0, 3), (1, 4)]⟩ }

/-- The CPU for `bp2Program` with a breakpoint on line 4 (instruction 1). -/
def bp2State : CPUState :=
  setBreakpoints (cpuInit bp2Program ⟨List.replicate 32 0⟩) [4]

theorem getElem?_take_lt {α : Type} {l : List α} {n i : Nat} (h : i < n) :
    (l.take n)[i]? = l[i]? := by
  simp [List.getElem?_take, h]

theorem getElem?_take_ge {α : Type} {l : List α} {n i : Nat} (h : n ≤ i) :
    (l.take n)[i]? = none := by
  simp [List.getElem?_take, Nat.not_lt.mpr h]

theorem length_natToBytes (n s : Nat) : (natToBytes n s).length = s := by
  induction s generalizing n with
  | zero => rfl
  | succ s ih => simp [natToBytes, ih]

theorem mem_natToBytes_lt {x n s : Nat} (h : x ∈ natToBytes n s) : x < 256 := by
  induction s generalizing n with
  | zero => simp [natToBytes] at h
  | succ s ih =>
    simp only [natToBytes, List.mem_cons] at h
    rcases h with h | h
    · subst h; exact Nat.mod_lt _ (by norm_num)
    · exact ih h

theorem leValue_natToBytes (n s : Nat) : leValue (natToBytes n s) = n % 256 ^ s := by
  induction s generalizing n with
  | zero => simp [natToBytes, leValue, Nat.mod_one]
  | succ s ih =>
    have h256 : (256 : Nat) ^ (s + 1) = 256 * 256 ^ s := by ring
    rw [natToBytes, leValue, ih, h256, Nat.mod_mul]

theorem leValue_lt {l : List Nat} (h : ∀ x ∈ l, x < 256) : leValue l < 256 ^ l.length := by
  induction l with
  | nil => simp [leValue]
  | cons b rest ih =>
    have hb : b < 256 := h b (List.mem_cons_self _ _)
    have hr : leValue rest < 256 ^ rest.length := ih fun x hx => h x (List.mem_cons_of_mem _ hx)
    have : (256 : Nat) ^ (rest.length + 1) = 256 * 256 ^ rest.length := by ring
    simp only [leValue, List.length_cons, this]
    omega

theorem length_listWrite (l vs : List Nat) (off : Nat) :
    (listWrite l off vs).length = l.length := by
  induction vs generalizing l off with
  | nil => rfl
  | cons v rest ih => simp [listWrite, ih]

theorem listWrite_getElem?_lt {l vs : List Nat} {off j : Nat} (h : j < off) :
    (listWrite l off vs)[j]? = l[j]? := by
  induction vs generalizing l off with
  | nil => rfl
  | cons v rest ih =>
    rw [listWrite, ih (by omega), List.getElem?_set_ne (by omega)]

theorem listWrite_getElem?_ge {l vs : List Nat} {off j : Nat} (h : off + vs.length ≤ j) :
    (listWrite l off vs)[j]? = l[j]? := by
  induction vs generalizing l off with
  | nil => rfl
  | cons v rest ih =>
    simp only [List.length_cons] at h
    rw [listWrite, ih (by omega), List.getElem?_set_ne (by omega)]

theorem listWrite_getElem?_in {l vs : List Nat} {off j : Nat}
    (h1 : off ≤ j) (h2 : j < off + vs.length) (h3 : j < l.length) :
    (listWrite l off vs)[j]? = vs[j - off]? := by
  induction vs generalizing l off with
  | nil => simp at h2; omega
  | cons v rest ih =>
    rcases Nat.eq_or_lt_of_le h1 with heq | hlt
    · subst heq
      rw [listWrite, listWrite_getElem?_lt (by omega),
        List.getElem?_set_eq_of_lt _ h3]
      simp
    · have : (listWrite (l.set off v) (off + 1) rest)[j]? = rest[j - (off + 1)]? := by
        apply ih (by omega) (by simpa using by simp at h2; omega) (by simpa using h3)
      rw [listWrite, this]
      have hj : j - off = (j - (off + 1)) + 1 := by omega
      simp [hj]

theorem mem_listWrite {x : Nat} {l vs : List Nat} {off : Nat}
    (h : x ∈ listWrite l off vs) : x ∈ l ∨ x ∈ vs := by
  induction vs generalizing l off with
  | nil => exact Or.inl h
  | cons v rest ih =>
    rw [listWrite] at h
    rcases ih h with h' | h'
    · rcases List.mem_or_eq_of_mem_set h' with h'' | h''
      · exact Or.inl h''
      · exact Or.inr (by simp [h''])
    · exact Or.inr (List.mem_cons_of_mem _ h')

theorem pow256 (s : Nat) : (2 : Nat) ^ (8 * s) = 256 ^ s := by
  rw [pow_mul]; norm_num

theorem intToUnsigned_lt (v : Int) (s : Nat) : intToUnsigned v s < 256 ^ s := by
  have hpos : (0 : Int) < (2 : Int) ^ (8 * s) := by positivity
  have h1 : v % ((2 : Int) ^ (8 * s)) < (2 : Int) ^ (8 * s) :=
    Int.emod_lt_of_pos v hpos
  have h2 : ((2 : Int) ^ (8 * s)) = ((256 ^ s : Nat) : Int) := by
    push_cast [← pow256 s]; ring
  rw [intToUnsigned]
  omega

theorem intToUnsigned_coe (n : Nat) (s : Nat) : intToUnsigned (n : Int) s = n % 256 ^ s := by
  rw [intToUnsigned]
  have : ((n : Int) % ((2 : Int) ^ (8 * s))) = ((n % 2 ^ (8 * s) : Nat) : Int) := by
    push_cast; ring_nf
  rw [this, Int.toNat_ofNat, pow256]

theorem intToUnsigned_coe_of_lt {n : Nat} {s : Nat} (h : n < 256 ^ s) :
    intToUnsigned (n : Int) s = n := by
  rw [intToUnsigned_coe, Nat.mod_eq_of_lt h]

theorem size_blockSet (b : MemoryBlock) (off size : Nat) (v : Int) :
    (blockSet b off size v).size = b.size := by
  simp [blockSet, MemoryBlock.size, length_listWrite]

/-- A sized write followed by a read of the same range returns the written
value truncated to the range's width. -/
theorem blockGet_blockSet_same {b : MemoryBlock} {off size : Nat} (v : Int)
    (h : off + size ≤ b.size) :
    blockGet (blockSet b off size v) off size = intToUnsigned v size := by
  have hlen : (natToBytes (intToUnsigned v size) size).length = size := length_natToBytes _ _
  have hseg : (((blockSet b off size v).bytes.drop off).take size)
      = natToBytes (intToUnsigned v size) size := by
    apply List.ext_getElem?
    intro i
    by_cases hi : i < size
    · rw [getElem?_take_lt hi, List.getElem?_drop]
      rw [show (blockSet b off size v).bytes = listWrite b.bytes off
        (natToBytes (intToUnsigned v size) size) from rfl]
      rw [listWrite_getElem?_in (by omega) (by omega)
        (by simp [MemoryBlock.size] at h; omega)]
      simp
    · rw [getElem?_take_ge (by omega), List.getElem?_eq_none (by omega)]
  rw [blockGet, hseg, leValue_natToBytes, Nat.mod_eq_of_lt (intToUnsigned_lt v size)]

/-- A sized write leaves every byte outside its own range unchanged. -/
theorem blockSet_frame_byte {b : MemoryBlock} {off size : Nat} (v : Int) {j : Nat}
    (h : j < off ∨ off + size ≤ j) :
    (blockSet b off size v).bytes[j]? = b.bytes[j]? := by
  rcases h with h | h
  · exact listWrite_getElem?_lt h
  · exact listWrite_getElem?_ge (by rw [length_natToBytes]; omega)

/-- Reading a byte range disjoint from a written range is unaffected by the
write. -/
theorem blockGet_blockSet_disjoint {b : MemoryBlock} {off size off2 size2 : Nat} (v : Int)
    (h : off2 + size2 ≤ off ∨ off + size ≤ off2) :
    blockGet (blockSet b off size v) off2 size2 = blockGet b off2 size2 := by
  rw [blockGet, blockGet]
  congr 1
  apply List.ext_getElem?
  intro i
  by_cases hi : i < size2
  · rw [getElem?_take_lt hi, getElem?_take_lt hi, List.getElem?_drop, List.getElem?_drop]
    apply blockSet_frame_byte
    omega
  · rw [getElem?_take_ge (by omega), getElem?_take_ge (by omega)]

theorem blockGet_lt {b : MemoryBlock} (hwf : ∀ x ∈ b.bytes, x < 256) (off size : Nat) :
    blockGet b off size < 256 ^ size := by
  have hseg : ∀ x ∈ (b.bytes.drop off).take size, x < 256 := by
    intro x hx
    exact hwf x (List.mem_of_mem_drop (List.mem_of_mem_take hx))
  have hlen : ((b.bytes.drop off).take size).length ≤ size := by
    simp
  calc leValue ((b.bytes.drop off).take size)
      < 256 ^ ((b.bytes.drop off).take size).length := leValue_lt hseg
    _ ≤ 256 ^ size := Nat.pow_le_pow_right (by norm_num) hlen

theorem mem_blockSet_lt {b : MemoryBlock} {off size : Nat} {v : Int}
    (hwf : ∀ x ∈ b.bytes, x < 256) :
    ∀ x ∈ (blockSet b off size v).bytes, x < 256 := by
  intro x hx
  rcases mem_listWrite hx with h | h
  · exact hwf x h
  · exact mem_natToBytes_lt h

theorem getD_set_self {α : Type} {l : List α} {i : Nat} {a d : α} (h : i < l.length) :
    (l.set i a).getD i d = a := by
  rw [List.getD_eq_getElem?_getD, List.getElem?_set_eq_of_lt a h]
  rfl

theorem getD_set_ne {α : Type} {l : List α} {i j : Nat} {a d : α} (h : i ≠ j) :
    (l.set i a).getD j d = l.getD j d := by
  rw [List.getD_eq_getElem?_getD, List.getD_eq_getElem?_getD, List.getElem?_set_ne h]

theorem getD_mem {α : Type} {l : List α} {i : Nat} {d : α} (h : i < l.length) :
    l.getD i d ∈ l := by
  rw [List.getD_eq_getElem?_getD, List.getElem?_eq_getElem h]
  exact List.getElem_mem h

/-- Every entry of the register table stays within the ten four-byte banks. -/
theorem registerInfo_bounds {name : String} {info : RegisterInfo}
    (h : registerInfo name = some info) :
    info.bank < 10 ∧ info.index + info.byteSize ≤ 4 := by
  have hmem : ∃ p ∈ REGISTER_INDEX, p.2 = info := by
    rcases hfind : REGISTER_INDEX.find? (fun p => p.1 = name) with _ | p
    · rw [registerInfo, hfind] at h; simp at h
    · rw [registerInfo, hfind] at h
      simp at h
      exact ⟨p, List.mem_of_find?_eq_some hfind, h⟩
  rcases hmem with ⟨p, hp, rfl⟩
  simp [REGISTER_INDEX] at hp
  rcases hp with rfl|rfl|rfl|rfl|rfl|rfl|rfl|rfl|rfl|rfl|rfl|rfl|rfl|rfl|rfl|rfl <;> decide

theorem WFRegs.bank_len {st : CPUState} (h : WFRegs st) {i : Nat} (hi : i < 10) :
    (st.registers.getD i ⟨[]⟩).bytes.length = 4 := by
  obtain ⟨hlen, hall⟩ := h
  exact (hall _ (getD_mem (by omega))).1

theorem WFRegs.bank_bytes_lt {st : CPUState} (h : WFRegs st) {i : Nat} (hi : i < 10) :
    ∀ x ∈ (st.registers.getD i ⟨[]⟩).bytes, x < 256 := by
  obtain ⟨hlen, hall⟩ := h
  exact (hall _ (getD_mem (by omega))).2

theorem WFRegs_regSet {st : CPUState} (hwf : WFRegs st) (name : String) (v : Int) :
    WFRegs (regSet st name v) := by
  rcases h : registerInfo name with _ | info
  · simpa [regSet, h] using hwf
  · obtain ⟨hbank, hsz⟩ := registerInfo_bounds h
    obtain ⟨hlen, hall⟩ := hwf
    constructor
    · simp [regSet, h, hlen]
    · intro b hb
      simp only [regSet, h] at hb
      rcases List.mem_or_eq_of_mem_set hb with hb2 | rfl
      · exact hall b hb2
      · have hmem : st.registers.getD info.bank ⟨[]⟩ ∈ st.registers := getD_mem (by omega)
        obtain ⟨hl4, hlt⟩ := hall _ hmem
        refine ⟨?_, mem_blockSet_lt hlt⟩
        have hs := size_blockSet (st.registers.getD info.bank ⟨[]⟩) info.index info.byteSize v
        simp only [MemoryBlock.size] at hs
        omega

theorem regSet_memory (st : CPUState) (n : String) (v : Int) :
    (regSet st n v).memory = st.memory := by
  rcases h : registerInfo n with _ | i <;> simp [regSet, h]

theorem regSet_program (st : CPUState) (n : String) (v : Int) :
    (regSet st n v).program = st.program := by
  rcases h : registerInfo n with _ | i <;> simp [regSet, h]

/-- Reading a register straight after writing it returns the written value
truncated to the view's width. -/
theorem regGet_regSet_self {st : CPUState} {name : String} {info : RegisterInfo} {v : Int}
    (h : registerInfo name = some info) (hwf : WFRegs st) :
    regGet (regSet st name v) name = intToUnsigned v info.byteSize := by
  obtain ⟨hbank, hsz⟩ := registerInfo_bounds h
  have hlen4 : (st.registers.getD info.bank ⟨[]⟩).bytes.length = 4 := hwf.bank_len hbank
  have hreg : info.bank < st.registers.length := by have := hwf.1; omega
  simp only [regSet, h, regGet]
  rw [getD_set_self hreg]
  exact blockGet_blockSet_same v (by rw [MemoryBlock.size, hlen4]; omega)

/-- Writing one register leaves every register in a different bank unchanged. -/
theorem regGet_regSet_ne_bank {st : CPUState} {n1 n2 : String} {i1 i2 : RegisterInfo} {v : Int}
    (h1 : registerInfo n1 = some i1) (h2 : registerInfo n2 = some i2)
    (hb : i2.bank ≠ i1.bank) :
    regGet (regSet st n2 v) n1 = regGet st n1 := by
  simp only [regSet, h2, regGet, h1]
  rw [getD_set_ne hb]

/-- Writing one register leaves any same-bank register whose byte range is
disjoint from the written range unchanged. -/
theorem regGet_regSet_same_bank_disjoint {st : CPUState} {n1 n2 : String}
    {i1 i2 : RegisterInfo} {v : Int}
    (h1 : registerInfo n1 = some i1) (h2 : registerInfo n2 = some i2)
    (hb : i2.bank = i1.bank) (hwf : WFRegs st)
    (hd : i1.index + i1.byteSize ≤ i2.index ∨ i2.index + i2.byteSize ≤ i1.index) :
    regGet (regSet st n2 v) n1 = regGet st n1 := by
  obtain ⟨hbank, _⟩ := registerInfo_bounds h1
  have hreg : i1.bank < st.registers.length := by have := hwf.1; omega
  simp only [regSet, h2, regGet, h1, hb]
  rw [getD_set_self hreg]
  exact blockGet_blockSet_disjoint v (by omega)

theorem regGet_lt {st : CPUState} (hwf : WFRegs st) {name : String} {info : RegisterInfo}
    (h : registerInfo name = some info) :
    regGet st name < 256 ^ info.byteSize := by
  obtain ⟨hbank, _⟩ := registerInfo_bounds h
  simp only [regGet, h]
  exact blockGet_lt (hwf.bank_bytes_lt hbank) _ _

theorem registerInfo_EIP : registerInfo "EIP" = some ⟨1, 1, 4, 0⟩ := rfl

theorem registerInfo_ESP : registerInfo "ESP" = some ⟨3, 3, 4, 0⟩ := rfl

theorem registerInfo_EBP : registerInfo "EBP" = some ⟨2, 2, 4, 0⟩ := rfl

theorem registerInfo_NULL : registerInfo "NULL" = some ⟨0, 0, 4, 0⟩ := rfl

theorem registerInfo_AX : registerInfo "AX" = some ⟨21, 4, 2, 0⟩ := rfl

theorem registerInfo_AH : registerInfo "AH" = some ⟨22, 4, 1, 1⟩ := rfl

theorem registerInfo_AL : registerInfo "AL" = some ⟨23, 4, 1, 0⟩ := rfl

theorem registerInfo_EBX : registerInfo "EBX" = some ⟨24, 5, 4, 0⟩ := rfl

theorem WFRegs_init (p : Program) (m : MemoryBlock) :
    WFRegs { registers := List.replicate 10 ⟨List.replicate 4 0⟩, memory := m, program := p } := by
  constructor
  · simp
  · intro b hb
    rw [List.eq_of_mem_replicate hb]
    refine ⟨by simp, ?_⟩
    intro x hx
    rw [List.eq_of_mem_replicate hx]
    norm_num

theorem pause_eq (st : CPUState) :
    pause st = { st with running := false, scheduleTimeout := false } := by
  rw [pause, clearScheduledRun]
  rcases hto : st.scheduleTimeout <;> simp [hto]

theorem regGet_ESP_lt {st : CPUState} (hwf : WFRegs st) : regGet st "ESP" < 2 ^ 32 := by
  have h := regGet_lt hwf registerInfo_ESP
  have h2 : (256 : Nat) ^ (4 : Nat) = 2 ^ 32 := by norm_num
  exact lt_of_lt_of_eq h h2

theorem regGet_regSet_self_ESP {st : CPUState} (hwf : WFRegs st) (v : Int) :
    regGet (regSet st "ESP" v) "ESP" = intToUnsigned v 4 :=
  regGet_regSet_self registerInfo_ESP hwf

/-- C6: after `reset()` — and hence immediately after construction, since the
constructor ends in `reset()` — the instruction pointer EIP is 0 and both EBP
and ESP hold `memory.size - 1`. -/
theorem c6_reset_pointers :
    (∀ (st : CPUState), WFRegs st → 1 ≤ st.memory.size → st.memory.size - 1 < 2 ^ 32 →
      (reset st).eip = 0 ∧ regGet (reset st) "ESP" = st.memory.size - 1 ∧
        regGet (reset st) "EBP" = st.memory.size - 1) ∧
    (∀ (p : Program) (m : MemoryBlock), 1 ≤ m.size → m.size - 1 < 2 ^ 32 →
      (cpuInit p m).eip = 0 ∧ regGet (cpuInit p m) "ESP" = m.size - 1 ∧
        regGet (cpuInit p m) "EBP" = m.size - 1) := by
  have h256 : (256 : Nat) ^ (4 : Nat) = 2 ^ 32 := by norm_num
  have main : ∀ (st : CPUState), WFRegs st → 1 ≤ st.memory.size →
      st.memory.size - 1 < 2 ^ 32 →
      (reset st).eip = 0 ∧ regGet (reset st) "ESP" = st.memory.size - 1 ∧
        regGet (reset st) "EBP" = st.memory.size - 1 := by
    intro st hwf h1 h2
    have hwf1 : WFRegs (regSet st "EIP" 0) := WFRegs_regSet hwf _ _
    have hm1 : (regSet st "EIP" 0).memory = st.memory := regSet_memory _ _ _
    have hwf2 : WFRegs (regSet (regSet st "EIP" 0) "ESP" (((regSet st "EIP" 0).memory.size : Int) - 1)) :=
      WFRegs_regSet hwf1 _ _
    have hcast : ∀ k : Nat, k = st.memory.size →
        ((k : Int) - 1) = (((st.memory.size - 1 : Nat)) : Int) := by
      intro k hk; omega
    have hval : intToUnsigned ((st.memory.size : Int) - 1) 4 = st.memory.size - 1 := by
      rw [hcast st.memory.size rfl, intToUnsigned_coe_of_lt]
      rw [h256]; exact h2
    refine ⟨?_, ?_, ?_⟩
    · show regGet (reset st) "EIP" = 0
      rw [reset]
      rw [regGet_regSet_ne_bank registerInfo_EIP registerInfo_EBP (by decide)]
      rw [regGet_regSet_ne_bank registerInfo_EIP registerInfo_ESP (by decide)]
      rw [regGet_regSet_self registerInfo_EIP hwf]
      decide
    · rw [reset]
      rw [regGet_regSet_ne_bank registerInfo_ESP registerInfo_EBP (by decide)]
      rw [regGet_regSet_self registerInfo_ESP hwf1]
      rw [hm1]
      exact hval
    · rw [reset]
      rw [regGet_regSet_self registerInfo_EBP hwf2]
      rw [regSet_memory, hm1]
      exact hval
  refine ⟨main, ?_⟩
  intro p m hm1 hm2
  exact main { registers := List.replicate 10 ⟨List.replicate 4 0⟩,
               memory := m, program := p } (WFRegs_init p m) hm1 hm2

/-- C6 witness: a concrete 32-byte machine. -/
theorem c6_reset_pointers_witness :
    (cpuInit ⟨[], [], ⟨[]⟩⟩ ⟨List.replicate 32 0⟩).eip = 0 ∧
      regGet (cpuInit ⟨[], [], ⟨[]⟩⟩ ⟨List.replicate 32 0⟩) "ESP" = 31 ∧
      regGet (cpuInit ⟨[], [], ⟨[]⟩⟩ ⟨List.replicate 32 0⟩) "EBP" = 31 :=
  c6_reset_pointers.2 ⟨[], [], ⟨[]⟩⟩ ⟨List.replicate 32 0⟩ (by decide) (by decide)

/-- C10: a `step()` on a finished program only pauses (running flag false,
pending scheduled step cancelled) and fires the exit notification; registers,
memory, flags, breakpoints and the stopped-on-breakpoint latch are untouched,
and because the state is otherwise unchanged the next `step()` fires the exit
notification again. -/
theorem c10_step_when_finished (st : CPUState) (h : isFinished st = true) :
    (step st).1.registers = st.registers ∧
    (step st).1.memory = st.memory ∧
    (step st).1.status = st.status ∧
    (step st).1.breakpoints = st.breakpoints ∧
    (step st).1.stoppedOnBreakpoint = st.stoppedOnBreakpoint ∧
    (step st).1.program = st.program ∧
    (step st).1.running = false ∧
    (step st).1.scheduleTimeout = false ∧
    (step st).2 = [Event.exit] ∧
    (step (step st).1).2 = [Event.exit] := by
  have hstep : step st = (pause st, [Event.exit]) := by
    simp [step, h]
  rw [hstep, pause_eq]
  refine ⟨rfl, rfl, rfl, rfl, rfl, rfl, rfl, rfl, rfl, ?_⟩
  have hf : isFinished ({ st with running := false, scheduleTimeout := false } : CPUState) = true := h
  simp [step, hf]

/-- C10 witness: a machine whose program is empty is finished at once. -/
theorem c10_step_when_finished_witness :
    isFinished (cpuInit ⟨[], [], ⟨[]⟩⟩ ⟨List.replicate 8 0⟩) = true ∧
      (step (cpuInit ⟨[], [], ⟨[]⟩⟩ ⟨List.replicate 8 0⟩)).2 = [Event.exit] :=
  ⟨by decide, (c10_step_when_finished _ (by decide)).2.2.2.2.2.2.2.2.1⟩

/-- C5: `push` decrements ESP by exactly 4 then stores at the new ESP;
`pop` reads at ESP then increments it by exactly 4; their composition
returns the pushed value and restores ESP. -/
theorem c5_push_pop :
    (∀ (st : CPUState) (v : Nat), WFRegs st → 4 ≤ regGet st "ESP" →
      regGet st "ESP" ≤ st.memory.size → v < 2 ^ 32 →
      regGet (push st (v : Int)) "ESP" = regGet st "ESP" - 4 ∧
      blockGet (push st (v : Int)).memory (regGet st "ESP" - 4) 4 = v ∧
      (pop (push st (v : Int))).1 = v ∧
      regGet (pop (push st (v : Int))).2 "ESP" = regGet st "ESP") ∧
    (∀ (st : CPUState), WFRegs st →
      (pop st).1 = blockGet st.memory (regGet st "ESP") 4 ∧
      (regGet st "ESP" + 4 < 2 ^ 32 →
        regGet (pop st).2 "ESP" = regGet st "ESP" + 4)) := by
  have h256 : (256 : Nat) ^ (4 : Nat) = 2 ^ 32 := by norm_num
  constructor
  · intro st v hwf h4 hm hv
    have hlt : regGet st "ESP" < 2 ^ 32 := regGet_ESP_lt hwf
    have hwfd : WFRegs (regSet st "ESP" ((regGet st "ESP" : Int) + (-4))) :=
      WFRegs_regSet hwf _ _
    have hespd : regGet (regSet st "ESP" ((regGet st "ESP" : Int) + (-4))) "ESP" =
        regGet st "ESP" - 4 := by
      rw [regGet_regSet_self_ESP hwf]
      have hcast : ((regGet st "ESP" : Int) + (-4)) = (((regGet st "ESP" - 4 : Nat)) : Int) := by
        omega
      rw [hcast, intToUnsigned_coe_of_lt (by rw [h256]; omega)]
    have hmem1 : (regSet st "ESP" ((regGet st "ESP" : Int) + (-4))).memory = st.memory :=
      regSet_memory _ _ _
    have hpushE : regGet (push st (v : Int)) "ESP" = regGet st "ESP" - 4 := by
      show regGet (regSet st "ESP" ((regGet st "ESP" : Int) + (-4))) "ESP" = _
      exact hespd
    have hpushM : (push st (v : Int)).memory =
        blockSet st.memory (regGet st "ESP" - 4) 4 (v : Int) := by
      show blockSet (regSet st "ESP" ((regGet st "ESP" : Int) + (-4))).memory
          (regGet (regSet st "ESP" ((regGet st "ESP" : Int) + (-4))) "ESP") 4 (v : Int) = _
      rw [hmem1, hespd]
    have hread : blockGet (push st (v : Int)).memory (regGet st "ESP" - 4) 4 = v := by
      rw [hpushM, blockGet_blockSet_same (v : Int)]
      · exact intToUnsigned_coe_of_lt (by rw [h256]; omega)
      · rw [MemoryBlock.size] at hm ⊢
        omega
    have hwfp : WFRegs (push st (v : Int)) := hwfd
    refine ⟨hpushE, hread, ?_, ?_⟩
    · show blockGet (push st (v : Int)).memory (regGet (push st (v : Int)) "ESP") 4 = v
      rw [hpushE]
      exact hread
    · show regGet (regSet (push st (v : Int)) "ESP"
          ((regGet (push st (v : Int)) "ESP" : Int) + 4)) "ESP" = regGet st "ESP"
      rw [regGet_regSet_self_ESP hwfp, hpushE]
      have hcast : (((regGet st "ESP" - 4 : Nat) : Int) + 4) = ((regGet st "ESP" : Nat) : Int) := by
        omega
      rw [hcast, intToUnsigned_coe_of_lt (by rw [h256]; omega)]
  · intro st hwf
    refine ⟨rfl, ?_⟩
    intro hlt
    show regGet (regSet st "ESP" ((regGet st "ESP" : Int) + 4)) "ESP" = regGet st "ESP" + 4
    rw [regGet_regSet_self_ESP hwf]
    have hcast : ((regGet st "ESP" : Int) + 4) = (((regGet st "ESP" + 4 : Nat)) : Int) := by
      omega
    rw [hcast, intToUnsigned_coe_of_lt (by rw [h256]; omega)]

theorem blockGet_one (b : MemoryBlock) (off : Nat) :
    blockGet b off 1 = b.bytes[off]?.getD 0 := by
  rw [blockGet]
  have h0 : (b.bytes.drop off)[0]? = b.bytes[off]? := by
    simp [List.getElem?_drop]
  rcases hd : b.bytes.drop off with _ | ⟨y, ys⟩
  · rw [hd] at h0
    simp only [List.getElem?_nil] at h0
    rw [← h0]
    simp [leValue]
  · rw [hd] at h0
    simp only [List.getElem?_cons_zero] at h0
    rw [← h0]
    simp [leValue]

/-- C9: a write through a register view changes only that view's byte range of
its bank and a read returns exactly the view's byte range as an integer: the
general frame and read-back laws for sized views, plus the AX/AH/AL overlap
inside the EAX bank — writing the 2-byte AX view makes the 1-byte AL and AH
sub-views read the low and high byte while bytes 2 and 3 of the bank and
other banks are untouched, and writing the 1-byte AL view leaves AH and the
rest of its bank unchanged. -/
theorem c9_register_views :
    (∀ (bank : MemoryBlock) (off size : Nat) (v : Int) (j : Nat),
      j < off ∨ off + size ≤ j →
      (blockSet bank off size v).bytes[j]? = bank.bytes[j]?) ∧
    (∀ (bank : MemoryBlock) (off size : Nat) (v : Nat),
      off + size ≤ bank.size → v < 256 ^ size →
      blockGet (blockSet bank off size (v : Int)) off size = v) ∧
    (∀ (st : CPUState) (v : Nat), WFRegs st → v < 2 ^ 16 →
      regGet (regSet st "AX" (v : Int)) "AL" = v % 256 ∧
      regGet (regSet st "AX" (v : Int)) "AH" = v / 256 ∧
      (∀ j, 2 ≤ j →
        ((regSet st "AX" (v : Int)).registers.getD 4 ⟨[]⟩).bytes[j]? =
          (st.registers.getD 4 ⟨[]⟩).bytes[j]?) ∧
      regGet (regSet st "AX" (v : Int)) "EBX" = regGet st "EBX") ∧
    (∀ (st : CPUState) (w : Int), WFRegs st →
      regGet (regSet st "AL" w) "AH" = regGet st "AH" ∧
      (∀ j, 1 ≤ j →
        ((regSet st "AL" w).registers.getD 4 ⟨[]⟩).bytes[j]? =
          (st.registers.getD 4 ⟨[]⟩).bytes[j]?)) := by
  refine ⟨fun bank off size v j h => blockSet_frame_byte v h, ?_, ?_, ?_⟩
  · intro bank off size v h1 h2
    rw [blockGet_blockSet_same (v : Int) h1]
    exact intToUnsigned_coe_of_lt h2
  · intro st v hwf hv
    have h65536 : (256 : Nat) ^ (2 : Nat) = 2 ^ 16 := by norm_num
    have hm : intToUnsigned (v : Int) 2 = v :=
      intToUnsigned_coe_of_lt (by rw [h65536]; exact hv)
    have hlen10 : st.registers.length = 10 := hwf.1
    have hlen4 : (st.registers.getD 4 ⟨[]⟩).bytes.length = 4 := hwf.bank_len (by norm_num)
    have hlist : natToBytes (intToUnsigned (v : Int) 2) 2 = [v % 256, v / 256 % 256] := by
      rw [hm]
      rfl
    have hbank : ((regSet st "AX" (v : Int)).registers.getD 4 ⟨[]⟩).bytes =
        listWrite (st.registers.getD 4 ⟨[]⟩).bytes 0 [v % 256, v / 256 % 256] := by
      simp only [regSet, registerInfo_AX]
      rw [getD_set_self (by omega)]
      rw [blockSet, hlist]
    have hb0 : ((regSet st "AX" (v : Int)).registers.getD 4 ⟨[]⟩).bytes[0]? =
        some (v % 256) := by
      rw [hbank, listWrite_getElem?_in (by omega) (by simp) (by omega)]
      rfl
    have hb1 : ((regSet st "AX" (v : Int)).registers.getD 4 ⟨[]⟩).bytes[1]? =
        some (v / 256 % 256) := by
      rw [hbank, listWrite_getElem?_in (by omega) (by simp) (by omega)]
      rfl
    refine ⟨?_, ?_, ?_, ?_⟩
    · have hAL : regGet (regSet st "AX" (v : Int)) "AL" =
          blockGet ((regSet st "AX" (v : Int)).registers.getD 4 ⟨[]⟩) 0 1 := by
        simp only [regGet, registerInfo_AL]
      rw [hAL, blockGet_one, hb0]
      rfl
    · have hAH : regGet (regSet st "AX" (v : Int)) "AH" =
          blockGet ((regSet st "AX" (v : Int)).registers.getD 4 ⟨[]⟩) 1 1 := by
        simp only [regGet, registerInfo_AH]
      rw [hAH, blockGet_one, hb1]
      have : v / 256 % 256 = v / 256 := Nat.mod_eq_of_lt (by omega)
      simp [this]
    · intro j hj
      rw [hbank]
      exact listWrite_getElem?_ge (by simp; omega)
    · exact regGet_regSet_ne_bank registerInfo_EBX registerInfo_AX (by decide)
  · intro st w hwf
    have hlen10 : st.registers.length = 10 := hwf.1
    refine ⟨?_, ?_⟩
    · exact regGet_regSet_same_bank_disjoint registerInfo_AH registerInfo_AL rfl hwf
        (by decide)
    · intro j hj
      simp only [regSet, registerInfo_AL]
      rw [getD_set_self (by omega)]
      exact blockSet_frame_byte w (by omega)

/-- C9 witness: a concrete machine with AX set to 0x1234. -/
theorem c9_register_views_witness :
    regGet (regSet (cpuInit ⟨[], [], ⟨[]⟩⟩ ⟨List.replicate 8 0⟩) "AX" 4660) "AL" = 52 ∧
      regGet (regSet (cpuInit ⟨[], [], ⟨[]⟩⟩ ⟨List.replicate 8 0⟩) "AX" 4660) "AH" = 18 :=
  ⟨((c9_register_views.2.2.1 (cpuInit ⟨[], [], ⟨[]⟩⟩ ⟨List.replicate 8 0⟩) 4660
      (by decide) (by decide)).1).trans (by decide),
   ((c9_register_views.2.2.1 (cpuInit ⟨[], [], ⟨[]⟩⟩ ⟨List.replicate 8 0⟩) 4660
      (by decide) (by decide)).2.1).trans (by decide)⟩

/-- C4: encoding a memory operand requires a known base register name (an
unknown name fails with UnknownRegister), defaults an absent index register
to register id 0 — the NULL pseudo-register, which reads as 0 — an absent
scale multiplier to 0 (not 1) and an absent displacement to 0, while present
fields are passed through. -/
theorem c4_memory_operand_encoding :
    (∀ (size : Nat) (base : String) (info : RegisterInfo),
      registerInfo base = some info →
      parseMemoryParameter size (.memory base none none none) =
        .ok (.memory size info.id 0 0 0)) ∧
    (∀ (size : Nat) (base ix : String) (bi ii : RegisterInfo) (m c : Int),
      registerInfo base = some bi → registerInfo ix = some ii →
      parseMemoryParameter size (.memory base (some ix) (some m) (some c)) =
        .ok (.memory size bi.id ii.id m c)) ∧
    (∀ (size : Nat) (base : String),
      registerInfo base = none →
      parseMemoryParameter size (.memory base none none none) =
        .error (.asm (.unknownRegister base) 0 .empty)) ∧
    registerInfo "NULL" = some ⟨0, 0, 4, 0⟩ ∧
    (∀ (p : Program) (m : MemoryBlock), regGet (cpuInit p m) "NULL" = 0) := by
  refine ⟨?_, ?_, ?_, rfl, ?_⟩
  · intro size base info h
    simp [parseMemoryParameter, parseRegisterName, h, registerId, Except.bind, Bind.bind,
      pure, Except.pure]
  · intro size base ix bi ii m c hb hi
    simp [parseMemoryParameter, parseRegisterName, hb, hi, registerId, Except.bind, Bind.bind,
      pure, Except.pure]
  · intro size base h
    simp [parseMemoryParameter, parseRegisterName, h, Except.bind, Bind.bind]
  · intro p m
    rw [cpuInit, reset]
    rw [regGet_regSet_ne_bank registerInfo_NULL registerInfo_EBP (by decide)]
    rw [regGet_regSet_ne_bank registerInfo_NULL registerInfo_ESP (by decide)]
    rw [regGet_regSet_ne_bank registerInfo_NULL registerInfo_EIP (by decide)]
    rfl

/-- C4 witness: a bare `[EBX]` memory operand. -/
theorem c4_memory_operand_encoding_witness :
    parseMemoryParameter 4 (.memory "EBX" none none none) =
      .ok (.memory 4 24 0 0 0) :=
  c4_memory_operand_encoding.1 4 "EBX" ⟨24, 5, 4, 0⟩ rfl

/-- C1 (code bug): assembling the forward-reference program does not succeed.
The dispatch in `loadParameters` calls each builder with exactly two
arguments, so `parseLabelParameter` receives `undefined` for its
`assemblyData` parameter and the property access on it raises a TypeError;
no label operand is ever recorded for resolution. -/
theorem c1_forward_reference_crashes :
    assembleParsedFull forwardProgram = .error .jsTypeError := rfl

/-- C2 (code bug): line 3 maps to instruction address 0, but the breakpoint
setter's identity filter drops the falsy address 0, so the breakpoint list
comes out empty and the first `step()` executes `MOV EAX, 5` — EIP advances
to 1 and EAX becomes 5 — instead of pausing with no register mutated.  At a
nonzero address the two-call contract works: with a breakpoint at address 1
the second call stops before instruction 1 and the third executes it. -/
theorem c2_breakpoint_at_first_instruction_not_hit :
    bpProgram.lineMap.getAddressByLine 3 = some 0 ∧
    bpState.breakpoints = [] ∧
    (step bpState).1.eip = 1 ∧
    regGet (step bpState).1 "EAX" = 5 ∧
    (step bpState).1.stoppedOnBreakpoint = false ∧
    bp2State.breakpoints = [1] ∧
    (step bp2State).1.eip = 1 ∧
    (step (step bp2State).1).1.eip = 1 ∧
    (step (step bp2State).1).1.stoppedOnBreakpoint = true ∧
    (step (step (step bp2State).1).1).1.eip = 2 := by decide

/-- C3 counterexample: the local label `m`, defined in the text segment
before any global label of that segment, does not raise OrphanLocalLabel:
assembly succeeds and `m` is qualified against the data-segment global
label `d` as `d.m`, because both passes share one label table and the
data label's address 0 is at or below the text cursor. -/
theorem c3_counterexample_cross_segment_capture :
    assembleParsedFull crossSegmentProgram =
      .ok (⟨[⟨.intr, [.constant 4 0 false]⟩], [⟨0, 1, 1⟩], ⟨[(0, 1)]⟩⟩,
        { textAddress := 1, dataAddress := 1, lineMap := ⟨[(0, 1)]⟩,
          labelResolver := ⟨[("d", ⟨"d", false, 0⟩), ("d.m", ⟨"d.m", true, 0⟩)], []⟩ }) := rfl

theorem getLast?_cons_eq {α : Type} (x : α) (l : List α) :
    (x :: l).getLast? = some (l.getLast?.getD x) := by
  cases l with
  | nil => rfl
  | cons y ys =>
    rw [List.getLast?_cons_cons]
    rcases h : (y :: ys).getLast? with _ | z
    · exact absurd (List.getLast?_eq_none_iff.mp h) (by simp)
    · simp [h]

/-- lodash `findLast` returns the last element of the filtered list. -/
theorem findLastP_eq {α : Type} (p : α → Bool) (l : List α) :
    findLastP p l = (l.filter p).getLast? := by
  induction l with
  | nil => rfl
  | cons x xs ih =>
    rw [List.filter_cons]
    rcases h : findLastP p xs with _ | y
    · rw [h] at ih
      have hnil : xs.filter p = [] := List.getLast?_eq_none_iff.mp ih.symm
      cases hp : p x
      · simp only [findLastP, h, hp, Bool.false_eq_true, reduceIte]
        rw [hnil]
        rfl
      · simp only [findLastP, h, hp, reduceIte]
        rw [hnil]
        rfl
    · rw [h] at ih
      cases hp : p x
      · simp only [findLastP, h, hp, Bool.false_eq_true, reduceIte]
        exact ih
      · simp only [findLastP, h, hp, reduceIte]
        rw [getLast?_cons_eq, ← ih]
        rfl

/-- C3 amended: local-label qualification uses lodash `findLast` over the one
label table shared by both passes: the most recently added label that is
global and whose address is at most the current cursor, regardless of which
segment defined it; OrphanLocalLabel is raised exactly when no such label
exists in the whole table — so a local label before any global label in the
data pass fails, but a text-segment local label can be captured by a
data-segment global instead of failing. -/
theorem c3_local_label_qualification :
    ∀ (r : LabelResolver) (addr : Nat) (name : String),
      (r.findPreviousGlobalLabel addr =
        ((r.labels.map Prod.snd).filter
          (fun l => !l.isLocal && decide (l.address ≤ addr))).getLast?) ∧
      (r.findPreviousGlobalLabel addr = none →
        r.addLabel addr name true = .error (.asm (.orphanLocalLabel name) 0 .empty)) ∧
      (∀ g, r.findPreviousGlobalLabel addr = some g →
        r.hasLabel (g.name ++ "." ++ name) = false →
        r.addLabel addr name true =
          .ok { r with labels :=
            r.labels ++ [(g.name ++ "." ++ name, ⟨g.name ++ "." ++ name, true, addr⟩)] }) := by
  intro r addr name
  refine ⟨findLastP_eq _ _, ?_, ?_⟩
  · intro h
    simp [LabelResolver.addLabel, LabelResolver.normalizeLabelName, h,
      Except.bind, Bind.bind]
  · intro g hg hnot
    simp [LabelResolver.addLabel, LabelResolver.normalizeLabelName, hg, hnot,
      Except.bind, Bind.bind]

/-- C3 amended witness: a local label qualified against the preceding global
label `g`. -/
theorem c3_local_label_qualification_witness :
    LabelResolver.addLabel ⟨[("g", ⟨"g", false, 0⟩)], []⟩ 5 "x" true =
      .ok ⟨[("g", ⟨"g", false, 0⟩), ("g.x", ⟨"g.x", true, 5⟩)], []⟩ :=
  (c3_local_label_qualification ⟨[("g", ⟨"g", false, 0⟩)], []⟩ 5 "x").2.2
    ⟨"g", false, 0⟩ rfl rfl

/-- C7: a second definition of an already-present qualified label name fails
with DuplicateLabel at the resolver, whose single table is shared by both
passes; end to end, duplicate definitions fail whether both are in the data
segment, both in the text segment, or one in each. -/
theorem c7_duplicate_label :
    (∀ (r r1 : LabelResolver) (addr1 addr2 : Nat) (name : String),
      r.addLabel addr1 name false = .ok r1 →
      r1.addLabel addr2 name false = .error (.asm (.duplicateLabel name) 0 .empty)) ∧
    assembleParsedFull dupDataData = .error (.asm (.duplicateLabel "a") 2
      (.dataLine ⟨some ⟨"a", false⟩, some 1, [.num 2]⟩)) ∧
    assembleParsedFull dupTextText = .error (.asm (.duplicateLabel "a") 2
      (.textLine ⟨some ⟨"a", false⟩, some ⟨"INT", "INT", [.constant 0 false]⟩⟩)) ∧
    assembleParsedFull dupDataText = .error (.asm (.duplicateLabel "a") 2
      (.textLine ⟨some ⟨"a", false⟩, some ⟨"INT", "INT", [.constant 0 false]⟩⟩)) := by
  refine ⟨?_, rfl, rfl, rfl⟩
  intro r r1 addr1 addr2 name h
  simp only [LabelResolver.addLabel, LabelResolver.normalizeLabelName,
    Bool.false_eq_true, reduceIte, Except.bind, Bind.bind] at h ⊢
  cases hc : r.hasLabel name
  · rw [hc] at h
    simp only [Bool.false_eq_true, reduceIte, Except.ok.injEq] at h
    have hr1 : r1.hasLabel name = true := by
      rw [← h]
      simp [LabelResolver.hasLabel, List.any_append]
    rw [hr1]
    rfl
  · rw [hc] at h
    simp at h

/-- The text-segment pass over a split line list: the prefix runs first and,
when it succeeds, the suffix continues from the threaded assembly state. -/
theorem assembleTextSegment_ok_then
    (xs : List (LineEntry TextLineInner)) (ad ad1 : AssemblyData)
    (is1 : List EncodedInstruction)
    (h : assembleTextSegment xs ad = .ok (is1, ad1))
    (ys : List (LineEntry TextLineInner)) :
    assembleTextSegment (xs ++ ys) ad =
      match assembleTextSegment ys ad1 with
      | .error e => .error e
      | .ok (is2, ad2) => .ok (is1 ++ is2, ad2) := by
  induction xs generalizing ad is1 with
  | nil =>
    simp only [assembleTextSegment, Except.ok.injEq, Prod.mk.injEq] at h
    obtain ⟨h1, h2⟩ := h
    subst h1
    subst h2
    rcases hy : assembleTextSegment ys ad with ey | ⟨is2, ad2⟩ <;> simp [hy]
  | cons e rest ih =>
    rw [assembleTextSegment] at h
    rw [show ((e :: rest) ++ ys) = e :: (rest ++ ys) from rfl, assembleTextSegment]
    rcases hi : assembleInstruction e.line ad with err | ⟨oi, ad2⟩
    · rw [hi] at h
      simp at h
    · rw [hi] at h
      rcases oi with _ | instr
      · dsimp only at h ⊢
        exact ih ad2 is1 h
      · dsimp only at h ⊢
        split at h
        · simp at h
        · rename_i is3 ad3 heq
          simp only [Except.ok.injEq, Prod.mk.injEq] at h
          obtain ⟨h1, h2⟩ := h
          subst h2
          rw [ih _ _ heq]
          rcases hy : assembleTextSegment ys ad3 with ey | ⟨isy, ady⟩ <;> simp [hy, ← h1]

/-- The data-segment pass over a split line list. -/
theorem assembleDataSegment_ok_then
    (xs : List (LineEntry DataLineInner)) (ad ad1 : AssemblyData)
    (ds1 : List MemoryDefinition)
    (h : assembleDataSegment xs ad = .ok (ds1, ad1))
    (ys : List (LineEntry DataLineInner)) :
    assembleDataSegment (xs ++ ys) ad =
      match assembleDataSegment ys ad1 with
      | .error e => .error e
      | .ok (ds2, ad2) => .ok (ds1 ++ ds2, ad2) := by
  induction xs generalizing ad ds1 with
  | nil =>
    simp only [assembleDataSegment, Except.ok.injEq, Prod.mk.injEq] at h
    obtain ⟨h1, h2⟩ := h
    subst h1
    subst h2
    rcases hy : assembleDataSegment ys ad with ey | ⟨ds2, ad2⟩ <;> simp [hy]
  | cons e rest ih =>
    rw [assembleDataSegment] at h
    rw [show ((e :: rest) ++ ys) = e :: (rest ++ ys) from rfl, assembleDataSegment]
    rcases hi : assembleMemoryDefinitions e.line ad with err | ⟨ds, ad2⟩
    · rw [hi] at h
      simp at h
    · rw [hi] at h
      dsimp only at h ⊢
      split at h
      · simp at h
      · rename_i ds3 ad3 heq
        simp only [Except.ok.injEq, Prod.mk.injEq] at h
        obtain ⟨h1, h2⟩ := h
        subst h2
        rw [ih _ _ heq]
        rcases hy : assembleDataSegment ys ad3 with ey | ⟨dsy, ady⟩ <;> simp [hy, ← h1]

/-- C8 amended: an AssemblyException raised while assembling a source line —
in either pass — aborts the pass at that line and is re-raised with the same
message kind, the line's 1-based number and the parsed line data; a failure
that is not an AssemblyException (the label-operand TypeError) is re-raised
unchanged, with no line information attached. -/
theorem c8_line_error_wrapping :
    (∀ (pre : List (LineEntry TextLineInner)) (e : LineEntry TextLineInner)
        (rest : List (LineEntry TextLineInner)) (ad ad1 : AssemblyData)
        (is1 : List EncodedInstruction) (k : ErrKind) (l0 : Nat) (d0 : LineData),
      assembleTextSegment pre ad = .ok (is1, ad1) →
      assembleInstruction e.line ad1 = .error (.asm k l0 d0) →
      1 ≤ e.startLine →
      assembleTextSegment (pre ++ e :: rest) ad =
        .error (.asm k e.startLine (.textLine e.line))) ∧
    (∀ (pre : List (LineEntry DataLineInner)) (e : LineEntry DataLineInner)
        (rest : List (LineEntry DataLineInner)) (ad ad1 : AssemblyData)
        (ds1 : List MemoryDefinition) (k : ErrKind) (l0 : Nat) (d0 : LineData),
      assembleDataSegment pre ad = .ok (ds1, ad1) →
      assembleMemoryDefinitions e.line ad1 = .error (.asm k l0 d0) →
      1 ≤ e.startLine →
      assembleDataSegment (pre ++ e :: rest) ad =
        .error (.asm k e.startLine (.dataLine e.line))) ∧
    (∀ (line0 : Nat) (d : LineData), wrapLine .jsTypeError line0 d = .jsTypeError) := by
  refine ⟨?_, ?_, fun _ _ => rfl⟩
  · intro pre e rest ad ad1 is1 k l0 d0 hpre herr hline
    rw [assembleTextSegment_ok_then pre ad ad1 is1 hpre (e :: rest)]
    rw [assembleTextSegment, herr]
    have : e.startLine - 1 + 1 = e.startLine := by omega
    simp [wrapLine, this]
  · intro pre e rest ad ad1 ds1 k l0 d0 hpre herr hline
    rw [assembleDataSegment_ok_then pre ad ad1 ds1 hpre (e :: rest)]
    rw [assembleDataSegment, herr]
    have : e.startLine - 1 + 1 = e.startLine := by omega
    simp [wrapLine, this]

/-- C8 amended witness: an unknown instruction on source line 2 is re-raised
with line number 2 and the parsed line. -/
theorem c8_line_error_wrapping_witness :
    assembleTextSegment [⟨2, ⟨none, some ⟨"FOO", "FOO", []⟩⟩⟩] {} =
      .error (.asm (.unknownInstruction "FOO") 2
        (.textLine ⟨none, some ⟨"FOO", "FOO", []⟩⟩)) :=
  c8_line_error_wrapping.1 [] ⟨2, ⟨none, some ⟨"FOO", "FOO", []⟩⟩⟩ [] {} {}
    [] (.unknownInstruction "FOO") 0 .empty rfl rfl (by decide)

/-- C8 counterexample: the TypeError raised while assembling line 5 of
`labelOperandProgram` (a label operand hitting the undefined `assemblyData`
crash) escapes the per-line catch unwrapped: the failure that aborts
assembly is not an AssemblyException and carries neither a line number nor
the parsed line data. -/
theorem c8_counterexample_unwrapped_failure :
    assembleParsedFull labelOperandProgram = .error .jsTypeError ∧
      ∀ (k : ErrKind) (l : Nat) (d : LineData),
        (AsmException.jsTypeError : AsmException) ≠ .asm k l d :=
  ⟨rfl, fun _ _ _ h => AsmException.noConfusion h⟩

/-- C7 witness: `a` defined at address 0, then again at address 1. -/
theorem c7_duplicate_label_witness :
    LabelResolver.addLabel ⟨[("a", ⟨"a", false, 0⟩)], []⟩ 1 "a" false =
      .error (.asm (.duplicateLabel "a") 0 .empty) :=
  c7_duplicate_label.1 ⟨[], []⟩ ⟨[("a", ⟨"a", false, 0⟩)], []⟩ 0 1 "a" rfl

/-- C5 witness: the design document's own example, `push(10)` then `pop()`
on a freshly constructed 32-byte machine. -/
theorem c5_push_pop_witness :
    (pop (push (cpuInit ⟨[], [], ⟨[]⟩⟩ ⟨List.replicate 32 0⟩) 10)).1 = 10 ∧
      regGet (pop (push (cpuInit ⟨[], [], ⟨[]⟩⟩ ⟨List.replicate 32 0⟩) 10)).2 "ESP" = 31 :=
  ⟨(c5_push_pop.1 (cpuInit ⟨[], [], ⟨[]⟩⟩ ⟨List.replicate 32 0⟩) 10
      (by decide) (by decide) (by decide) (by decide)).2.2.1,
   ((c5_push_pop.1 (cpuInit ⟨[], [], ⟨[]⟩⟩ ⟨List.replicate 32 0⟩) 10
      (by decide) (by decide) (by decide) (by decide)).2.2.2).trans (by decide)⟩

end Davis
